import Mathlib

/-
  Verification of the knnCpp power-grid KNN classifier.

  Shallow embedding of the core numeric pipeline:
    phasor.cpp                          -> phasor arithmetic
    parameter.h / nodeSample.h          -> parameter and nodeSample records
    lineSample.cpp                      -> normalized per-line feature vector
    distanceSample.cpp                  -> comparability check + weighted distance
    knnPredictionOfUnknownLineSample.cpp -> top-k scan and majority vote

  C++ doubles are modelled as rationals.  The <cmath> routines that have no
  computable rational counterpart (sqrt/hypot, atan, cos, sin, pow) are
  supplied as an explicit record of rational functions, so every definition
  below is executable; theorems that need analytic facts about those
  routines take them as hypotheses.
-/

namespace KnnCpp

/-- The <cmath> routines used by phasor.cpp, as abstract rational functions.
    sqrtQ x models sqrt(x) (and hypot(a,b) = sqrtQ (a^2 + b^2));
    atanDeg x models 180/pi * atan(x); cosDeg x models cos(pi/180 * x);
    sinDeg x models sin(pi/180 * x); powQ x p models pow(x, p). -/
structure realFns where
  sqrtQ : ℚ → ℚ
  atanDeg : ℚ → ℚ
  cosDeg : ℚ → ℚ
  sinDeg : ℚ → ℚ
  powQ : ℚ → ℚ → ℚ

/-- The complex-number representation of a sinusoidal signal (class phasor,
    phasor.h): cartesian parts plus polar RMS magnitude and phase angle in
    degrees. -/
structure phasor where
  real : ℚ := 0
  imaginary : ℚ := 0
  RMSvalue : ℚ := 0
  PhaseAngleDegrees : ℚ := 0
deriving DecidableEq

/-- phasor::UpdateRealAndImag: recompute the cartesian parts from the polar
    parts (real = RMS * cos(pi/180 * angle), imaginary = RMS * sin(...)). -/
def updateRealAndImag (fns : realFns) (p : phasor) : phasor :=
  { p with
    real := p.RMSvalue * fns.cosDeg p.PhaseAngleDegrees
    imaginary := p.RMSvalue * fns.sinDeg p.PhaseAngleDegrees }

/-- The phase-angle branch of phasor::UpdateRMSandPhase: the special case
    real = 0 avoids a division by zero in the arctangent; otherwise atan is
    quadrant-corrected by +-180 when real < 0. -/
def angleFromCartesian (fns : realFns) (re im : ℚ) : ℚ :=
  if re = 0 then
    if im < 0 then -90 else if 0 < im then 90 else 0
  else
    if re < 0 then
      if 0 ≤ im then fns.atanDeg (im / re) + 180 else fns.atanDeg (im / re) - 180
    else fns.atanDeg (im / re)

/-- phasor::UpdateRMSandPhase: compute RMS (hypot) and phase from the
    cartesian parts, yielding the full phasor with the given parts. -/
def updateRMSandPhase (fns : realFns) (re im : ℚ) : phasor :=
  { real := re
    imaginary := im
    RMSvalue := fns.sqrtQ (re ^ 2 + im ^ 2)
    PhaseAngleDegrees := angleFromCartesian fns re im }

/-- The loop "while (PhaseAngleDegrees > 180) PhaseAngleDegrees -= 360;". -/
def subtractLoop (a : ℚ) : ℚ :=
  if 180 < a then subtractLoop (a - 360) else a
termination_by (⌈a / 360⌉).toNat
decreasing_by
  rename_i h
  have h0 : (0 : ℚ) < a / 360 := by
    have ha : (0 : ℚ) < a := lt_trans (by norm_num) h
    exact div_pos ha (by norm_num)
  have h1 : (1 : ℤ) ≤ ⌈a / 360⌉ := Int.ceil_pos.mpr h0
  have h2 : ⌈(a - 360) / 360⌉ = ⌈a / 360⌉ - 1 := by
    rw [show (a - 360) / 360 = a / 360 - 1 by ring]
    exact_mod_cast Int.ceil_sub_int (a / 360) 1
  omega

/-- The loop "while (PhaseAngleDegrees <= -180) PhaseAngleDegrees += 360;". -/
def addLoop (a : ℚ) : ℚ :=
  if a ≤ -180 then addLoop (a + 360) else a
termination_by (-⌊a / 360⌋).toNat
decreasing_by
  rename_i h
  have h0 : a / 360 < 0 := by
    have ha : a < 0 := lt_of_le_of_lt h (by norm_num)
    exact div_neg_of_neg_of_pos ha (by norm_num)
  have h1 : ⌊a / 360⌋ < 0 := Int.floor_lt.mpr (by exact_mod_cast h0)
  have h2 : ⌊(a + 360) / 360⌋ = ⌊a / 360⌋ + 1 := by
    rw [show (a + 360) / 360 = a / 360 + 1 by ring]
    exact_mod_cast Int.floor_add_int (a / 360) 1
  omega

/-- The angle canonicalization appearing after every multiply, divide and
    power in phasor.cpp: both while loops run in sequence. -/
def normalizeAngle (a : ℚ) : ℚ := addLoop (subtractLoop a)

theorem subtractLoop_le (a : ℚ) : subtractLoop a ≤ 180 := by
  induction a using subtractLoop.induct with
  | case1 a h ih => rw [subtractLoop, if_pos h]; exact ih
  | case2 a h => rw [subtractLoop, if_neg h]; exact le_of_not_lt h

theorem addLoop_gt (a : ℚ) : -180 < addLoop a := by
  induction a using addLoop.induct with
  | case1 a h ih => rw [addLoop, if_pos h]; exact ih
  | case2 a h => rw [addLoop, if_neg h]; exact lt_of_not_le h

theorem addLoop_le (a : ℚ) (ha : a ≤ 180) : addLoop a ≤ 180 := by
  induction a using addLoop.induct with
  | case1 a h ih => rw [addLoop, if_pos h]; exact ih (by linarith)
  | case2 a h => rw [addLoop, if_neg h]; exact ha

theorem normalizeAngle_mem (a : ℚ) :
    -180 < normalizeAngle a ∧ normalizeAngle a ≤ 180 :=
  ⟨addLoop_gt _, addLoop_le _ (subtractLoop_le a)⟩

theorem subtractLoop_eq_self (a : ℚ) (h : a ≤ 180) : subtractLoop a = a := by
  rw [subtractLoop, if_neg (not_lt.mpr h)]

theorem addLoop_eq_self (a : ℚ) (h : -180 < a) : addLoop a = a := by
  rw [addLoop, if_neg (not_le.mpr h)]

/-- An angle already in (-180, 180] is left unchanged by the loops. -/
theorem normalizeAngle_eq_self (a : ℚ) (h1 : -180 < a) (h2 : a ≤ 180) :
    normalizeAngle a = a := by
  rw [normalizeAngle, subtractLoop_eq_self a h2, addLoop_eq_self a h1]

/-- phasor::operator+ : cartesian addition, then UpdateRMSandPhase. -/
def phasorAdd (fns : realFns) (p1 p2 : phasor) : phasor :=
  updateRMSandPhase fns (p1.real + p2.real) (p1.imaginary + p2.imaginary)

/-- phasor::operator- : cartesian subtraction, then UpdateRMSandPhase. -/
def phasorSub (fns : realFns) (p1 p2 : phasor) : phasor :=
  updateRMSandPhase fns (p1.real - p2.real) (p1.imaginary - p2.imaginary)

/-- phasor::operator* : magnitudes multiply, angles add, angle canonicalized,
    then UpdateRealAndImag. -/
def phasorMul (fns : realFns) (p1 p2 : phasor) : phasor :=
  updateRealAndImag fns
    { real := 0, imaginary := 0
      RMSvalue := p1.RMSvalue * p2.RMSvalue
      PhaseAngleDegrees := normalizeAngle (p1.PhaseAngleDegrees + p2.PhaseAngleDegrees) }

/-- phasor::operator/ : on a zero divisor the catch block prints the
    diagnostic and leaves the zero phasor (the Bool records that the
    division-by-zero condition was reported); otherwise magnitudes divide and
    angles subtract with canonicalization.  Both paths end with
    UpdateRealAndImag. -/
def phasorDiv (fns : realFns) (p1 p2 : phasor) : phasor × Bool :=
  if p2.RMSvalue = 0 then
    (updateRealAndImag fns { real := 0, imaginary := 0, RMSvalue := 0, PhaseAngleDegrees := 0 }, true)
  else
    (updateRealAndImag fns
      { real := 0, imaginary := 0
        RMSvalue := p1.RMSvalue / p2.RMSvalue
        PhaseAngleDegrees := normalizeAngle (p1.PhaseAngleDegrees - p2.PhaseAngleDegrees) }, false)

/-- phasor::Pow : magnitude raised to the power, angle multiplied by it and
    canonicalized; the zero base with non-positive power case reports the
    condition and yields the zero phasor. -/
def phasorPow (fns : realFns) (base : phasor) (power : ℚ) : phasor × Bool :=
  if base.RMSvalue = 0 ∧ power ≤ 0 then
    (updateRealAndImag fns { real := 0, imaginary := 0, RMSvalue := 0, PhaseAngleDegrees := 0 }, true)
  else
    (updateRealAndImag fns
      { real := 0, imaginary := 0
        RMSvalue := fns.powQ base.RMSvalue power
        PhaseAngleDegrees := normalizeAngle (base.PhaseAngleDegrees * power) }, false)

/-- phasor::phasor(rmsValue, phaseAngleDegrees): polar constructor. -/
def phasorOfPolar (fns : realFns) (rms ang : ℚ) : phasor :=
  updateRealAndImag fns { real := 0, imaginary := 0, RMSvalue := rms, PhaseAngleDegrees := ang }

/-- A parameter of interest in the power grid (class parameter, parameter.h):
    its phasor value and addressing identity.  The display strings Name and
    Units and the raw-measurement buffer are omitted: they feed only the
    printing and estimation routines, which no claim touches. -/
structure parameter where
  Phasor : phasor
  StartNodeNumber : ℤ := 0
  DestinationNodeNumber : ℤ := 0
deriving DecidableEq

/-- A sampled grid node (class nodeSample, nodeSample.h): node number, a
    voltage parameter, current parameters, and the two normalization
    ratings. -/
structure nodeSample where
  NodeNumber : ℤ
  Voltage : parameter
  Currents : List parameter
  RatedVoltage : ℚ := 250000
  RatedCurrent : ℚ := 25
deriving DecidableEq

/-- A line sampled at a node pair (class lineSample, lineSample.h): the
    normalized line currents, node voltages and other-current lists, plus the
    working-status label. -/
structure lineSample where
  Node1LineCurrentNorm : parameter
  Node2LineCurrentNorm : parameter
  Node1VoltageNorm : parameter
  Node2VoltageNorm : parameter
  Node1OtherCurrentsNorm : List parameter
  Node2OtherCurrentsNorm : List parameter
  IsWorking : Bool
deriving DecidableEq

/-- Normalization of one parameter as done throughout lineSample::lineSample:
    the parameter is copied and its phasor divided by the pure real phasor
    phasor(rated, 0). -/
def normalizeParam (fns : realFns) (rated : ℚ) (p : parameter) : parameter :=
  { p with Phasor := (phasorDiv fns p.Phasor (phasorOfPolar fns rated 0)).1 }

/-- lineSample::lineSample: find the line current at each node (the first
    current whose destination is the other node, failing construction when
    absent), normalize it and the node voltage, and collect the remaining
    currents (the first matching one removed, order preserved), each
    normalized by the owning node ratings.  A failed construction (the C++
    constructor prints and returns a half-built object that must not be
    used) is modelled as none. -/
def mkLineSample (fns : realFns) (node1 node2 : nodeSample) (isWorking : Bool) :
    Option lineSample :=
  match node1.Currents.find? (fun c => c.DestinationNodeNumber == node2.NodeNumber) with
  | none => none
  | some c1 =>
    match node2.Currents.find? (fun c => c.DestinationNodeNumber == node1.NodeNumber) with
    | none => none
    | some c2 =>
      some
        { Node1LineCurrentNorm := normalizeParam fns node1.RatedCurrent c1
          Node2LineCurrentNorm := normalizeParam fns node2.RatedCurrent c2
          Node1VoltageNorm := normalizeParam fns node1.RatedVoltage node1.Voltage
          Node2VoltageNorm := normalizeParam fns node2.RatedVoltage node2.Voltage
          Node1OtherCurrentsNorm :=
            (node1.Currents.eraseP (fun c => c.DestinationNodeNumber == node2.NodeNumber)).map
              (normalizeParam fns node1.RatedCurrent)
          Node2OtherCurrentsNorm :=
            (node2.Currents.eraseP (fun c => c.DestinationNodeNumber == node1.NodeNumber)).map
              (normalizeParam fns node2.RatedCurrent)
          IsWorking := isWorking }

/-- The identity comparison used on each parameter pair in
    distanceSample::AreSamplesOfTheSameLine. -/
def sameIdentity (p q : parameter) : Bool :=
  p.StartNodeNumber == q.StartNodeNumber &&
  p.DestinationNodeNumber == q.DestinationNodeNumber

/-- distanceSample::AreSamplesOfTheSameLine: structural addressing of both
    line currents, both voltage start nodes, and the positionally matched
    other-current lists must agree. -/
def areSamplesOfTheSameLine (known unknown : lineSample) : Bool :=
  sameIdentity known.Node1LineCurrentNorm unknown.Node1LineCurrentNorm &&
  sameIdentity known.Node2LineCurrentNorm unknown.Node2LineCurrentNorm &&
  (known.Node1VoltageNorm.StartNodeNumber == unknown.Node1VoltageNorm.StartNodeNumber) &&
  (known.Node2VoltageNorm.StartNodeNumber == unknown.Node2VoltageNorm.StartNodeNumber) &&
  (known.Node1OtherCurrentsNorm.length == unknown.Node1OtherCurrentsNorm.length) &&
  ((known.Node1OtherCurrentsNorm.zip unknown.Node1OtherCurrentsNorm).all fun pr =>
    sameIdentity pr.1 pr.2) &&
  (known.Node2OtherCurrentsNorm.length == unknown.Node2OtherCurrentsNorm.length) &&
  ((known.Node2OtherCurrentsNorm.zip unknown.Node2OtherCurrentsNorm).all fun pr =>
    sameIdentity pr.1 pr.2)

/-- The line-current weight wLine (distanceSample.h). -/
def wLine : ℚ := 20

/-- The node-voltage weight wNode (distanceSample.h). -/
def wNode : ℚ := 4

/-- The other-current weight wOther (distanceSample.h). -/
def wOther : ℚ := 1

/-- One squared feature term of the metric: pow((known - unknown).RMSvalue, 2)
    on the parameter phasors. -/
def distTermSq (fns : realFns) (p q : parameter) : ℚ :=
  ((phasorSub fns p.Phasor q.Phasor).RMSvalue) ^ 2

/-- distanceSample::CalculateDistance: the running accumulation of weighted
    squared phasor-difference magnitudes, square-rooted at the end.  The two
    for-loops over the other currents index both samples in lockstep over the
    known sample count; with comparable samples the lists have equal length,
    which the zip mirrors. -/
def calculateDistance (fns : realFns) (known unknown : lineSample) : ℚ :=
  let d1 := 0 + wLine / 2 * distTermSq fns known.Node1LineCurrentNorm unknown.Node1LineCurrentNorm
  let d2 := d1 + wLine / 2 * distTermSq fns known.Node2LineCurrentNorm unknown.Node2LineCurrentNorm
  let d3 := d2 + wNode / 2 * distTermSq fns known.Node1VoltageNorm unknown.Node1VoltageNorm
  let d4 := d3 + wNode / 2 * distTermSq fns known.Node2VoltageNorm unknown.Node2VoltageNorm
  let n1 : ℚ := known.Node1OtherCurrentsNorm.length
  let d5 := (known.Node1OtherCurrentsNorm.zip unknown.Node1OtherCurrentsNorm).foldl
    (fun d pr => d + wOther / (2 * n1) * distTermSq fns pr.1 pr.2) d4
  let n2 : ℚ := known.Node2OtherCurrentsNorm.length
  let d6 := (known.Node2OtherCurrentsNorm.zip unknown.Node2OtherCurrentsNorm).foldl
    (fun d pr => d + wOther / (2 * n2) * distTermSq fns pr.1 pr.2) d5
  fns.sqrtQ d6

/-- The per-pair distance record (class distanceSample, distanceSample.h)
    with its default field values. -/
structure distanceSample where
  Distance : ℚ := 1000000000
  IsWorking : Bool := true
deriving DecidableEq

/-- distanceSample::distanceSample: when the pair fails the same-line check
    the constructor prints and returns early, leaving the defaults;
    otherwise it copies the known label and computes the distance. -/
def mkDistanceSample (fns : realFns) (known unknown : lineSample) : distanceSample :=
  if areSamplesOfTheSameLine known unknown then
    { Distance := calculateDistance fns known unknown, IsWorking := known.IsWorking }
  else {}

/-- knnPredictionOfUnknownLineSample::SortDistances: one pass of the loop
    "for j from the last filled slot down to 1: swap slots j-1 and j when
    slot j holds the smaller Distance".  The recursion first bubbles within
    the tail (the loop iterations at the higher indices, which touch only
    positions 1 and up) and then performs the final comparison of positions
    0 and 1, exactly the iteration at index 1. -/
def bubblePass : List distanceSample → List distanceSample
  | [] => []
  | a :: t =>
    match bubblePass t with
    | [] => [a]
    | b :: t2 => if b.Distance < a.Distance then b :: a :: t2 else a :: b :: t2

/-- The scan loop of knnPredictionOfUnknownLineSample::SetDistances over the
    known samples, with acc the filled prefix of the distances array.  While
    fewer than k slots are filled the new sample is placed in the next slot
    and SortDistances runs over the filled slots (on a singleton the call is
    skipped, which the pass makes a no-op); once full, a candidate replaces
    the worst slot k-1 only when strictly closer, and SortDistances runs over
    the whole array. -/
def knnScan (k : ℕ) : List distanceSample → List distanceSample → List distanceSample
  | acc, [] => acc
  | acc, d :: rest =>
    if acc.length < k then
      knnScan k (bubblePass (acc ++ [d])) rest
    else
      match acc.getLast? with
      | some worst =>
        if d.Distance < worst.Distance then
          knnScan k (bubblePass (acc.dropLast ++ [d])) rest
        else
          knnScan k acc rest
      | none => knnScan k acc rest

/-- The distances array built by SetDistances from the listed distance
    samples (the loop starts from an empty array). -/
def setDistancesList (k : ℕ) (ds : List distanceSample) : List distanceSample :=
  knnScan k [] ds

/-- knnPredictionOfUnknownLineSample::PredictStatus: count working and
    not-working statuses over the k stored neighbors and return true exactly
    when strictly more are working. -/
def predictStatus (l : List distanceSample) : Bool :=
  let counts := l.foldl
    (fun (c : ℕ × ℕ) s => if s.IsWorking then (c.1 + 1, c.2) else (c.1, c.2 + 1)) (0, 0)
  if counts.2 < counts.1 then true else false

/-- The classifier object (class knnPredictionOfUnknownLineSample).  The
    distances pointer array is an Option: none models the NULL pointer. -/
structure knnState where
  SamplesWithKnownStatuses : List lineSample
  SampleWithUnknownStatus : lineSample
  numberOfNearestNeighbors : ℕ
  distances : Option (List distanceSample)
  PredictedStatus : Option Bool
deriving DecidableEq

/-- knnPredictionOfUnknownLineSample::SetDistances: when k exceeds the number
    of known statuses the method prints the configuration error and returns
    with the distances member untouched; otherwise it frees any previous
    array and rebuilds it by the scan over all known samples. -/
def setDistancesOn (fns : realFns) (st : knnState) : knnState :=
  if st.SamplesWithKnownStatuses.length < st.numberOfNearestNeighbors then st
  else
    { st with
      distances := some (setDistancesList st.numberOfNearestNeighbors
        (st.SamplesWithKnownStatuses.map
          (fun s => mkDistanceSample fns s st.SampleWithUnknownStatus))) }

/-- The constructor body "this->PredictedStatus = PredictStatus()": the vote
    loop reads distances[0..k-1].  When the distances array is still NULL
    (the k > n guard tripped inside SetDistances) that read dereferences a
    NULL pointer; the fault is modelled as none. -/
def predictStatusOf : Option (List distanceSample) → Option Bool
  | none => none
  | some l => some (predictStatus l)

/-- knnPredictionOfUnknownLineSample::knnPredictionOfUnknownLineSample: store
    the inputs (distances starts NULL, PredictedStatus defaults true), run
    SetDistances, then unconditionally run PredictStatus. -/
def mkKnn (fns : realFns) (knowns : List lineSample) (unknown : lineSample) (k : ℕ) :
    knnState :=
  let st := setDistancesOn fns
    { SamplesWithKnownStatuses := knowns
      SampleWithUnknownStatus := unknown
      numberOfNearestNeighbors := k
      distances := none
      PredictedStatus := some true }
  { st with PredictedStatus := predictStatusOf st.distances }

/-- knnPredictionOfUnknownLineSample::ChangeNumberOfNearestNeighbors: skip
    when unchanged, otherwise store the new k and rerun SetDistances.  The
    PredictedStatus member is not recomputed here. -/
def changeNumberOfNearestNeighbors (fns : realFns) (st : knnState) (k : ℕ) : knnState :=
  if st.numberOfNearestNeighbors = k then st
  else setDistancesOn fns { st with numberOfNearestNeighbors := k }

/-- Ordered insert of a rational into a list, placing the new value after any
    equal ones (the strict comparison of the sort pass). -/
def insertQ (x : ℚ) : List ℚ → List ℚ
  | [] => [x]
  | a :: t => if x < a then x :: a :: t else a :: insertQ x t

/-- The reference brute-force sort used to state the top-k property. -/
def insertionSortQ : List ℚ → List ℚ
  | [] => []
  | a :: t => insertQ a (insertionSortQ t)

/-- Ordered insert of a distance sample by Distance, after any equal ones;
    the extensional effect of the SortDistances pass on a sorted prefix with
    the new entry at the tail. -/
def insertTail (d : distanceSample) : List distanceSample → List distanceSample
  | [] => [d]
  | a :: t => if d.Distance < a.Distance then d :: a :: t else a :: insertTail d t

/-- The ordering of stored neighbors by Distance. -/
def distLE (a b : distanceSample) : Prop := a.Distance ≤ b.Distance

theorem insertQ_perm (x : ℚ) (l : List ℚ) : List.Perm (insertQ x l) (x :: l) := by
  induction l with
  | nil => exact List.Perm.refl _
  | cons a t ih =>
    rw [insertQ]
    by_cases h : x < a
    · rw [if_pos h]
    · rw [if_neg h]
      exact (ih.cons a).trans (List.Perm.swap x a t)

theorem insertQ_length (x : ℚ) (l : List ℚ) : (insertQ x l).length = l.length + 1 := by
  induction l with
  | nil => rfl
  | cons a t ih =>
    rw [insertQ]
    by_cases h : x < a
    · rw [if_pos h]; rfl
    · rw [if_neg h, List.length_cons, List.length_cons, ih]

theorem insertQ_sorted (x : ℚ) (l : List ℚ) (h : l.Pairwise (· ≤ ·)) :
    (insertQ x l).Pairwise (· ≤ ·) := by
  induction l with
  | nil => simp [insertQ]
  | cons a t ih =>
    rw [List.pairwise_cons] at h
    rw [insertQ]
    by_cases hx : x < a
    · rw [if_pos hx]
      refine List.Pairwise.cons ?_ (List.Pairwise.cons h.1 h.2)
      intro b hb
      rcases List.mem_cons.mp hb with rfl | hb'
      · exact le_of_lt hx
      · exact le_trans (le_of_lt hx) (h.1 b hb')
    · rw [if_neg hx]
      refine List.Pairwise.cons ?_ (ih h.2)
      intro b hb
      rcases List.mem_cons.mp ((insertQ_perm x t).mem_iff.mp hb) with rfl | hb'
      · exact not_lt.mp hx
      · exact h.1 b hb'

theorem insertionSortQ_perm (l : List ℚ) : List.Perm (insertionSortQ l) l := by
  induction l with
  | nil => exact List.Perm.refl _
  | cons a t ih => exact (insertQ_perm a (insertionSortQ t)).trans (ih.cons a)

theorem insertionSortQ_sorted (l : List ℚ) : (insertionSortQ l).Pairwise (· ≤ ·) := by
  induction l with
  | nil => simp [insertionSortQ]
  | cons a t ih => exact insertQ_sorted a _ ih

/-- Inserting a value smaller than a later pivot never crosses the pivot. -/
theorem insertQ_append_lt (x w : ℚ) (r : List ℚ) (hxw : x < w) :
    ∀ l : List ℚ, insertQ x (l ++ w :: r) = insertQ x l ++ w :: r := by
  intro l
  induction l with
  | nil => simp [insertQ, if_pos hxw]
  | cons a t ih =>
    rw [List.cons_append, insertQ, insertQ]
    by_cases h : x < a
    · rw [if_pos h, if_pos h, List.cons_append, List.cons_append]
    · rw [if_neg h, if_neg h, ih, List.cons_append]

/-- Inserting a value at least as large as a whole prefix passes over it. -/
theorem insertQ_append_ge (x : ℚ) (r : List ℚ) :
    ∀ l : List ℚ, (∀ a ∈ l, ¬ x < a) → insertQ x (l ++ r) = l ++ insertQ x r := by
  intro l
  induction l with
  | nil => intro _; rfl
  | cons a t ih =>
    intro hall
    rw [List.cons_append, insertQ, if_neg (hall a (List.mem_cons_self a t)),
      ih (fun b hb => hall b (List.mem_cons_of_mem a hb)), List.cons_append]

/-- In a sorted list every element is at most the last one. -/
theorem le_getLast_of_sorted :
    ∀ l : List ℚ, l.Pairwise (· ≤ ·) → ∀ w, l.getLast? = some w → ∀ a ∈ l, a ≤ w := by
  intro l
  induction l with
  | nil => intro _ w hw; simp at hw
  | cons a t ih =>
    intro hs w hw b hb
    cases t with
    | nil =>
      simp only [List.getLast?_singleton, Option.some.injEq] at hw
      rcases List.mem_singleton.mp hb with rfl
      exact le_of_eq hw
    | cons c t' =>
      rw [List.getLast?_cons_cons] at hw
      rw [List.pairwise_cons] at hs
      rcases List.mem_cons.mp hb with rfl | hb'
      · exact le_trans (hs.1 c (List.mem_cons_self c t'))
          (ih hs.2 w hw c (List.mem_cons_self c t'))
      · exact ih hs.2 w hw b hb'

/-- A list with a last element is its dropLast with that element appended. -/
theorem eq_dropLast_append_of_getLast? :
    ∀ (l : List ℚ) (w : ℚ), l.getLast? = some w → l = l.dropLast ++ [w] := by
  intro l
  induction l with
  | nil => intro w hw; simp at hw
  | cons a t ih =>
    intro w hw
    cases t with
    | nil =>
      simp only [List.getLast?_singleton, Option.some.injEq] at hw
      rw [← hw]; rfl
    | cons c t' =>
      rw [List.getLast?_cons_cons] at hw
      rw [List.dropLast_cons₂, List.cons_append, ← ih w hw]

theorem insertTail_perm (d : distanceSample) (l : List distanceSample) :
    List.Perm (insertTail d l) (d :: l) := by
  induction l with
  | nil => exact List.Perm.refl _
  | cons a t ih =>
    rw [insertTail]
    by_cases h : d.Distance < a.Distance
    · rw [if_pos h]
    · rw [if_neg h]
      exact (ih.cons a).trans (List.Perm.swap d a t)

theorem insertTail_length (d : distanceSample) (l : List distanceSample) :
    (insertTail d l).length = l.length + 1 :=
  (insertTail_perm d l).length_eq

theorem insertTail_sorted (d : distanceSample) (l : List distanceSample)
    (h : l.Pairwise distLE) : (insertTail d l).Pairwise distLE := by
  induction l with
  | nil => simp [insertTail, List.pairwise_cons]
  | cons a t ih =>
    rw [List.pairwise_cons] at h
    rw [insertTail]
    by_cases hx : d.Distance < a.Distance
    · rw [if_pos hx]
      refine List.Pairwise.cons ?_ (List.Pairwise.cons h.1 h.2)
      intro b hb
      rcases List.mem_cons.mp hb with rfl | hb'
      · exact le_of_lt hx
      · exact le_trans (le_of_lt hx) (h.1 b hb')
    · rw [if_neg hx]
      refine List.Pairwise.cons ?_ (ih h.2)
      intro b hb
      rcases List.mem_cons.mp ((insertTail_perm d t).mem_iff.mp hb) with rfl | hb'
      · exact not_lt.mp hx
      · exact h.1 b hb'

theorem insertTail_map (d : distanceSample) (l : List distanceSample) :
    (insertTail d l).map distanceSample.Distance =
      insertQ d.Distance (l.map distanceSample.Distance) := by
  induction l with
  | nil => rfl
  | cons a t ih =>
    rw [insertTail, List.map_cons, insertQ]
    by_cases h : d.Distance < a.Distance
    · rw [if_pos h, if_pos h, List.map_cons, List.map_cons]
    · rw [if_neg h, if_neg h, List.map_cons, ih]

theorem bubblePass_perm (l : List distanceSample) : List.Perm (bubblePass l) l := by
  induction l with
  | nil => exact List.Perm.refl _
  | cons a t ih =>
    rw [bubblePass]
    cases hb : bubblePass t with
    | nil =>
      have ht : t = [] := (hb ▸ ih).symm.eq_nil
      subst ht
      exact List.Perm.refl _
    | cons b t2 =>
      have ih' : List.Perm (b :: t2) t := hb ▸ ih
      show List.Perm (if b.Distance < a.Distance then b :: a :: t2 else a :: b :: t2) (a :: t)
      by_cases h : b.Distance < a.Distance
      · rw [if_pos h]
        exact ((List.Perm.swap a b t2).trans (ih'.cons a))
      · rw [if_neg h]
        exact ih'.cons a

/-- On a sorted prefix with the new entry appended at the tail, the
    SortDistances pass acts as ordered insertion. -/
theorem bubblePass_append (d : distanceSample) :
    ∀ l : List distanceSample, l.Pairwise distLE →
      bubblePass (l ++ [d]) = insertTail d l := by
  intro l
  induction l with
  | nil => intro _; rfl
  | cons a t ih =>
    intro hp
    rw [List.pairwise_cons] at hp
    have ht := ih hp.2
    rw [List.cons_append, bubblePass, ht]
    cases t with
    | nil =>
      show (if d.Distance < a.Distance then [d, a] else [a, d]) = insertTail d [a]
      have h1 : insertTail d [a] =
          if d.Distance < a.Distance then [d, a] else a :: insertTail d [] := rfl
      rw [h1]
      by_cases h : d.Distance < a.Distance
      · rw [if_pos h, if_pos h]
      · rw [if_neg h, if_neg h]
        rfl
    | cons c t' =>
      have hac : a.Distance ≤ c.Distance := hp.1 c (List.mem_cons_self c t')
      have hIT : insertTail d (c :: t') =
          if d.Distance < c.Distance then d :: c :: t' else c :: insertTail d t' := rfl
      have hITa : insertTail d (a :: c :: t') =
          if d.Distance < a.Distance then d :: a :: c :: t'
          else a :: insertTail d (c :: t') := rfl
      by_cases hdc : d.Distance < c.Distance
      · rw [hIT, if_pos hdc]
        show (if d.Distance < a.Distance then d :: a :: c :: t' else a :: d :: c :: t') =
          insertTail d (a :: c :: t')
        rw [hITa, hIT, if_pos hdc]
      · rw [hIT, if_neg hdc]
        have hda : ¬ d.Distance < a.Distance := fun hda => hdc (lt_of_lt_of_le hda hac)
        show (if c.Distance < a.Distance then c :: a :: insertTail d t'
            else a :: c :: insertTail d t') = insertTail d (a :: c :: t')
        rw [if_neg (not_lt.mpr hac), hITa, if_neg hda, hIT, if_neg hdc]

theorem knnScan_nil (k : ℕ) (acc : List distanceSample) : knnScan k acc [] = acc := rfl

theorem knnScan_cons (k : ℕ) (acc : List distanceSample) (d : distanceSample)
    (rest : List distanceSample) :
    knnScan k acc (d :: rest) =
      if acc.length < k then knnScan k (bubblePass (acc ++ [d])) rest
      else
        match acc.getLast? with
        | some worst =>
          if d.Distance < worst.Distance then
            knnScan k (bubblePass (acc.dropLast ++ [d])) rest
          else knnScan k acc rest
        | none => knnScan k acc rest := rfl

/-- The loop invariant of the SetDistances scan: acc holds, sorted, the k
    smallest of the values processed so far (all of them while fewer than k);
    after scanning the rest, the array holds the k smallest of all processed
    values, sorted ascending.  t names the sorted arrangement of all
    processed values. -/
theorem knnScan_invariant :
    ∀ (rest : List distanceSample) (k : ℕ) (acc : List distanceSample) (s : List ℚ),
      1 ≤ k →
      s.Pairwise (· ≤ ·) →
      acc.Pairwise distLE →
      acc.map distanceSample.Distance = s.take k →
      acc.length = min s.length k →
      ∃ t : List ℚ, t.Pairwise (· ≤ ·) ∧
        List.Perm t (s ++ rest.map distanceSample.Distance) ∧
        (knnScan k acc rest).map distanceSample.Distance = t.take k ∧
        (knnScan k acc rest).Pairwise distLE ∧
        (knnScan k acc rest).length = min t.length k := by
  intro rest
  induction rest with
  | nil =>
    intro k acc s hk hs hacc hmap hlen
    exact ⟨s, hs, by simp, by rw [knnScan_nil]; exact hmap,
      by rw [knnScan_nil]; exact hacc, by rw [knnScan_nil]; exact hlen⟩
  | cons d rest ih =>
    intro k acc s hk hs hacc hmap hlen
    have hperm : List.Perm (insertQ d.Distance s ++ rest.map distanceSample.Distance)
        (s ++ (d :: rest).map distanceSample.Distance) := by
      rw [List.map_cons]
      exact ((insertQ_perm d.Distance s).append_right
        (rest.map distanceSample.Distance)).trans List.perm_middle.symm
    by_cases hfill : acc.length < k
    · -- phase 1: the array is not yet full; insert at the tail and sort
      have hslt : s.length < k := by
        rcases le_or_lt k s.length with hle | hlt
        · rw [min_eq_right hle] at hlen; omega
        · exact hlt
      have hsl : acc.length = s.length := by
        rw [min_eq_left (le_of_lt hslt)] at hlen; exact hlen
      have hstep : knnScan k acc (d :: rest) = knnScan k (insertTail d acc) rest := by
        rw [knnScan_cons, if_pos hfill, bubblePass_append d acc hacc]
      have hmap' : (insertTail d acc).map distanceSample.Distance =
          (insertQ d.Distance s).take k := by
        rw [insertTail_map, hmap, List.take_of_length_le (le_of_lt hslt),
          List.take_of_length_le (by rw [insertQ_length]; omega)]
      have hlen' : (insertTail d acc).length = min (insertQ d.Distance s).length k := by
        rw [insertTail_length, insertQ_length,
          min_eq_left (by omega : s.length + 1 ≤ k)]
        omega
      obtain ⟨t, ht1, ht2, ht3, ht4, ht5⟩ := ih k (insertTail d acc) (insertQ d.Distance s)
        hk (insertQ_sorted d.Distance s hs) (insertTail_sorted d acc hacc) hmap' hlen'
      rw [← hstep] at ht3 ht4 ht5
      exact ⟨t, ht1, ht2.trans hperm, ht3, ht4, ht5⟩
    · -- phase 2: the array is full at k entries
      have hklen : acc.length = k := by
        rcases le_or_lt k s.length with hle | hlt
        · rw [min_eq_right hle] at hlen; exact hlen
        · rw [min_eq_left (le_of_lt hlt)] at hlen; omega
      have hks : k ≤ s.length := by
        rcases le_or_lt k s.length with hle | hlt
        · exact hle
        · rw [min_eq_left (le_of_lt hlt)] at hlen; omega
      have haccne : acc ≠ [] := by
        intro h0
        rw [h0] at hklen
        simp at hklen
        omega
      cases hworst : acc.getLast? with
      | none => exact absurd (List.getLast?_eq_none_iff.mp hworst) haccne
      | some worst =>
        have htklen : (s.take k).length = k := by
          rw [List.length_take, min_eq_left hks]
        have hwD : (s.take k).getLast? = some worst.Distance := by
          rw [← hmap, List.getLast?_map, hworst]
          rfl
        by_cases hcand : d.Distance < worst.Distance
        · -- replace the worst entry and re-sort
          have hdlsorted : acc.dropLast.Pairwise distLE :=
            hacc.sublist (List.dropLast_sublist acc)
          have hstep : knnScan k acc (d :: rest) =
              knnScan k (insertTail d acc.dropLast) rest := by
            rw [knnScan_cons, if_neg hfill, hworst]
            show (if d.Distance < worst.Distance then
                knnScan k (bubblePass (acc.dropLast ++ [d])) rest
              else knnScan k acc rest) = knnScan k (insertTail d acc.dropLast) rest
            rw [if_pos hcand, bubblePass_append d acc.dropLast hdlsorted]
          have hs_eq : s = (s.take k).dropLast ++ worst.Distance :: s.drop k := by
            conv_lhs => rw [← List.take_append_drop k s,
              eq_dropLast_append_of_getLast? (s.take k) worst.Distance hwD]
            rw [List.append_assoc, List.singleton_append]
          have hins : insertQ d.Distance s =
              insertQ d.Distance (s.take k).dropLast ++ worst.Distance :: s.drop k := by
            conv_lhs => rw [hs_eq]
            exact insertQ_append_lt d.Distance worst.Distance (s.drop k) hcand
              (s.take k).dropLast
          have hinslen : (insertQ d.Distance (s.take k).dropLast).length = k := by
            rw [insertQ_length, List.length_dropLast, htklen]
            omega
          have htake : (insertQ d.Distance s).take k =
              insertQ d.Distance (s.take k).dropLast := by
            rw [hins]
            exact List.take_left' hinslen
          have hmap' : (insertTail d acc.dropLast).map distanceSample.Distance =
              (insertQ d.Distance s).take k := by
            rw [insertTail_map, List.map_dropLast, hmap, htake]
          have hlen' : (insertTail d acc.dropLast).length =
              min (insertQ d.Distance s).length k := by
            rw [insertTail_length, List.length_dropLast, hklen, insertQ_length,
              min_eq_right (by omega : k ≤ s.length + 1)]
            omega
          obtain ⟨t, ht1, ht2, ht3, ht4, ht5⟩ := ih k (insertTail d acc.dropLast)
            (insertQ d.Distance s) hk (insertQ_sorted d.Distance s hs)
            (insertTail_sorted d acc.dropLast hdlsorted) hmap' hlen'
          rw [← hstep] at ht3 ht4 ht5
          exact ⟨t, ht1, ht2.trans hperm, ht3, ht4, ht5⟩
        · -- the candidate is not closer: discarded
          have hstep : knnScan k acc (d :: rest) = knnScan k acc rest := by
            rw [knnScan_cons, if_neg hfill, hworst]
            show (if d.Distance < worst.Distance then
                knnScan k (bubblePass (acc.dropLast ++ [d])) rest
              else knnScan k acc rest) = knnScan k acc rest
            rw [if_neg hcand]
          have hallk : ∀ a ∈ s.take k, ¬ d.Distance < a := by
            intro a ha
            exact not_lt.mpr (le_trans
              (le_getLast_of_sorted (s.take k) (hs.sublist (List.take_sublist k s))
                worst.Distance hwD a ha)
              (not_lt.mp hcand))
          have hins : insertQ d.Distance s =
              s.take k ++ insertQ d.Distance (s.drop k) := by
            conv_lhs => rw [← List.take_append_drop k s]
            exact insertQ_append_ge d.Distance (s.drop k) (s.take k) hallk
          have htake : (insertQ d.Distance s).take k = s.take k := by
            rw [hins]
            exact List.take_left' htklen
          have hmap' : acc.map distanceSample.Distance =
              (insertQ d.Distance s).take k := by
            rw [hmap, htake]
          have hlen' : acc.length = min (insertQ d.Distance s).length k := by
            rw [insertQ_length, hklen, min_eq_right (by omega : k ≤ s.length + 1)]
          obtain ⟨t, ht1, ht2, ht3, ht4, ht5⟩ := ih k acc (insertQ d.Distance s) hk
            (insertQ_sorted d.Distance s hs) hacc hmap' hlen'
          rw [← hstep] at ht3 ht4 ht5
          exact ⟨t, ht1, ht2.trans hperm, ht3, ht4, ht5⟩

/-- What SetDistances leaves in the distances array when k is admissible:
    sorted ascending, length k, and the distance values are exactly the first
    k values of the brute-force-sorted list of all distances. -/
theorem setDistancesList_spec (k : ℕ) (ds : List distanceSample)
    (hk : 1 ≤ k) (hn : k ≤ ds.length) :
    (setDistancesList k ds).Pairwise distLE ∧
    (setDistancesList k ds).length = k ∧
    (setDistancesList k ds).map distanceSample.Distance =
      (insertionSortQ (ds.map distanceSample.Distance)).take k := by
  obtain ⟨t, ht1, ht2, ht3, ht4, ht5⟩ := knnScan_invariant ds k [] [] hk
    List.Pairwise.nil List.Pairwise.nil (by simp) (by simp)
  rw [List.nil_append] at ht2
  have hteq : t = insertionSortQ (ds.map distanceSample.Distance) :=
    List.eq_of_perm_of_sorted
      (ht2.trans (insertionSortQ_perm (ds.map distanceSample.Distance)).symm)
      ht1 (insertionSortQ_sorted _)
  have htlen : t.length = ds.length := by
    rw [ht2.length_eq, List.length_map]
  refine ⟨ht4, ?_, ?_⟩
  · rw [setDistancesList, ht5, htlen, min_eq_right hn]
  · rw [setDistancesList, ht3, hteq]

theorem setDistancesOn_k (fns : realFns) (st : knnState) :
    (setDistancesOn fns st).numberOfNearestNeighbors = st.numberOfNearestNeighbors := by
  rw [setDistancesOn]
  split <;> rfl

theorem setDistancesOn_knowns (fns : realFns) (st : knnState) :
    (setDistancesOn fns st).SamplesWithKnownStatuses = st.SamplesWithKnownStatuses := by
  rw [setDistancesOn]
  split <;> rfl

theorem setDistancesOn_unknown (fns : realFns) (st : knnState) :
    (setDistancesOn fns st).SampleWithUnknownStatus = st.SampleWithUnknownStatus := by
  rw [setDistancesOn]
  split <;> rfl

theorem setDistancesOn_status (fns : realFns) (st : knnState) :
    (setDistancesOn fns st).PredictedStatus = st.PredictedStatus := by
  rw [setDistancesOn]
  split <;> rfl

theorem mkKnn_k (fns : realFns) (knowns : List lineSample) (unknown : lineSample) (k : ℕ) :
    (mkKnn fns knowns unknown k).numberOfNearestNeighbors = k := by
  rw [mkKnn]
  exact setDistancesOn_k fns _

theorem mkKnn_distances (fns : realFns) (knowns : List lineSample) (unknown : lineSample)
    (k : ℕ) (hn : k ≤ knowns.length) :
    (mkKnn fns knowns unknown k).distances =
      some (setDistancesList k (knowns.map (fun s => mkDistanceSample fns s unknown))) := by
  rw [mkKnn]
  show (setDistancesOn fns _).distances = _
  rw [setDistancesOn, if_neg (by simpa using not_lt.mpr hn)]

/-- The running pair of counters in PredictStatus, expressed with countP. -/
theorem voteCounts_eq :
    ∀ (l : List distanceSample) (c : ℕ × ℕ),
      l.foldl (fun (c : ℕ × ℕ) s => if s.IsWorking then (c.1 + 1, c.2) else (c.1, c.2 + 1)) c =
        (c.1 + l.countP (fun s => s.IsWorking), c.2 + l.countP (fun s => !s.IsWorking)) := by
  intro l
  induction l with
  | nil => intro c; simp
  | cons a t ih =>
    intro c
    rw [List.foldl_cons, List.countP_cons, List.countP_cons]
    cases ha : a.IsWorking <;> simp [ha, ih, Prod.ext_iff] <;> omega

theorem countP_total (l : List distanceSample) :
    l.countP (fun s => s.IsWorking) + l.countP (fun s => !s.IsWorking) = l.length := by
  induction l with
  | nil => rfl
  | cons a t ih =>
    rw [List.countP_cons, List.countP_cons, List.length_cons]
    by_cases h : a.IsWorking = true <;> simp [h] <;> omega

/-- A concrete instance of the abstract math routines used to run the
    embedding on sample inputs: the square root is the identity, the other
    routines are constant. -/
def fns0 : realFns :=
  { sqrtQ := id, atanDeg := fun _ => 0, cosDeg := fun _ => 0, sinDeg := fun _ => 0,
    powQ := fun _ _ => 0 }

/-- A concrete parameter with the given addressing and a real part. -/
def mkPar (start dest : ℤ) (re : ℚ) : parameter :=
  { Phasor := { real := re, imaginary := 0, RMSvalue := 0, PhaseAngleDegrees := 0 },
    StartNodeNumber := start, DestinationNodeNumber := dest }

/-- A concrete line sample family on the line 1-2: all identity fields agree,
    only the node-1 line current real part varies, so under fns0 the distance
    of sampleRe a to sampleRe 0 is 10 * a^4. -/
def sampleRe (re : ℚ) (w : Bool) : lineSample :=
  { Node1LineCurrentNorm := mkPar 1 2 re
    Node2LineCurrentNorm := mkPar 2 1 0
    Node1VoltageNorm := mkPar 1 0 0
    Node2VoltageNorm := mkPar 2 0 0
    Node1OtherCurrentsNorm := []
    Node2OtherCurrentsNorm := []
    IsWorking := w }

/-- Five labeled samples: distances to query0 are 10, 160, 810, 2560, 6250;
    the nearest is not working, the three middle ones are working. -/
def knowns0 : List lineSample :=
  [sampleRe 1 false, sampleRe 2 true, sampleRe 3 true, sampleRe 4 true, sampleRe 5 false]

/-- The concrete query sample. -/
def query0 : lineSample := sampleRe 0 true

/-- A line sample of a different line (node pair 3-4), not comparable with
    query0. -/
def otherLine : lineSample :=
  { sampleRe 0 true with Node1LineCurrentNorm := mkPar 3 4 0 }

/-- C1: for a labeled set all comparable to the query and 1 <= k <= n, after
    the SetDistances scan processes all n samples, the distances array has
    length k, is sorted ascending by Distance, and its list of distance
    values (hence its multiset) equals the first k values of the
    brute-force-sorted list of all n distances. -/
theorem knn_topk (fns : realFns) (knowns : List lineSample) (unknown : lineSample) (k : ℕ)
    (hk : 1 ≤ k) (hn : k ≤ knowns.length)
    (hcomp : ∀ s ∈ knowns, areSamplesOfTheSameLine s unknown = true) :
    ∃ l : List distanceSample,
      (mkKnn fns knowns unknown k).distances = some l ∧
      l.Pairwise distLE ∧
      l.length = k ∧
      l.map distanceSample.Distance =
        (insertionSortQ ((knowns.map (fun s => mkDistanceSample fns s unknown)).map
          distanceSample.Distance)).take k ∧
      (↑(l.map distanceSample.Distance) : Multiset ℚ) =
        ↑((insertionSortQ ((knowns.map (fun s => mkDistanceSample fns s unknown)).map
          distanceSample.Distance)).take k) := by
  obtain ⟨h1, h2, h3⟩ := setDistancesList_spec k
    (knowns.map (fun s => mkDistanceSample fns s unknown)) hk
    (by rw [List.length_map]; exact hn)
  exact ⟨setDistancesList k (knowns.map (fun s => mkDistanceSample fns s unknown)),
    mkKnn_distances fns knowns unknown k hn, h1, h2, h3,
    congrArg (fun x : List ℚ => (x : Multiset ℚ)) h3⟩

/-- C1 witness at a concrete input: five labeled samples, k = 2. -/
theorem knn_topk_witness :
    ∃ l : List distanceSample,
      (mkKnn fns0 knowns0 query0 2).distances = some l ∧
      l.Pairwise distLE ∧
      l.length = 2 ∧
      l.map distanceSample.Distance =
        (insertionSortQ ((knowns0.map (fun s => mkDistanceSample fns0 s query0)).map
          distanceSample.Distance)).take 2 ∧
      (↑(l.map distanceSample.Distance) : Multiset ℚ) =
        ↑((insertionSortQ ((knowns0.map (fun s => mkDistanceSample fns0 s query0)).map
          distanceSample.Distance)).take 2) :=
  knn_topk fns0 knowns0 query0 2 (by decide) (by decide) (by decide)

/-- C2: PredictStatus is true exactly when strictly more of the k stored
    neighbors are working than not; an equal split yields false; at least
    ceil(k/2 + 1) working neighbors (in Nat arithmetic, (k+3)/2) force true,
    and symmetrically at least ceil(k/2 + 1) not-working force false. -/
theorem predictStatus_spec (l : List distanceSample) :
    (predictStatus l = true ↔
      l.countP (fun s => !s.IsWorking) < l.countP (fun s => s.IsWorking)) ∧
    (l.countP (fun s => s.IsWorking) = l.countP (fun s => !s.IsWorking) →
      predictStatus l = false) ∧
    ((l.length + 3) / 2 ≤ l.countP (fun s => s.IsWorking) → predictStatus l = true) ∧
    ((l.length + 3) / 2 ≤ l.countP (fun s => !s.IsWorking) → predictStatus l = false) := by
  have ht := countP_total l
  have key : predictStatus l = true ↔
      l.countP (fun s => !s.IsWorking) < l.countP (fun s => s.IsWorking) := by
    rw [predictStatus]
    rw [voteCounts_eq l (0, 0)]
    by_cases h : l.countP (fun s => !s.IsWorking) < l.countP (fun s => s.IsWorking) <;>
      simp [h]
  refine ⟨key, ?_, ?_, ?_⟩
  · intro he
    rw [Bool.eq_false_iff]
    intro htrue
    have := key.mp htrue
    omega
  · intro hle
    exact key.mpr (by omega)
  · intro hle
    rw [Bool.eq_false_iff]
    intro htrue
    have := key.mp htrue
    omega

/-- C2 witness: a two-element tie (one working, one not) predicts false. -/
theorem predictStatus_spec_witness :
    predictStatus [{ Distance := 1, IsWorking := true },
      { Distance := 2, IsWorking := false }] = false :=
  (predictStatus_spec [{ Distance := 1, IsWorking := true },
    { Distance := 2, IsWorking := false }]).2.1 (by decide)

/-- C4: when k exceeds the labeled-set size, SetDistances prints the
    configuration error and returns with the distances array still NULL
    (distances = none), so no distance is computed - but the constructor then
    still executes PredictStatus, whose loop dereferences the NULL distances
    array (the fault is the none outcome).  Evaluated here at the failing
    input: one labeled sample with the default k = 5. -/
theorem knn_guard_bug :
    (mkKnn fns0 [query0] query0 5).distances = none ∧
    (mkKnn fns0 [query0] query0 5).PredictedStatus = none := by
  constructor <;> rfl

theorem mkKnn_knowns (fns : realFns) (knowns : List lineSample) (unknown : lineSample)
    (k : ℕ) : (mkKnn fns knowns unknown k).SamplesWithKnownStatuses = knowns := by
  rw [mkKnn]
  exact setDistancesOn_knowns fns _

theorem mkKnn_unknown (fns : realFns) (knowns : List lineSample) (unknown : lineSample)
    (k : ℕ) : (mkKnn fns knowns unknown k).SampleWithUnknownStatus = unknown := by
  rw [mkKnn]
  exact setDistancesOn_unknown fns _

/-- The constructor's stored prediction, when the guard admits k. -/
theorem mkKnn_status (fns : realFns) (knowns : List lineSample) (unknown : lineSample)
    (k : ℕ) (hn : k ≤ knowns.length) :
    (mkKnn fns knowns unknown k).PredictedStatus =
      some (predictStatus (setDistancesList k
        (knowns.map (fun s => mkDistanceSample fns s unknown)))) := by
  rw [mkKnn]
  show predictStatusOf (setDistancesOn fns _).distances = _
  rw [setDistancesOn, if_neg (by simpa using not_lt.mpr hn)]
  rfl

/-- The distances array after a change of k (with an admissible new k). -/
theorem changeK_distances (fns : realFns) (knowns : List lineSample) (unknown : lineSample)
    (k k' : ℕ) (hne : k' ≠ k) (hn : k' ≤ knowns.length) :
    (changeNumberOfNearestNeighbors fns (mkKnn fns knowns unknown k) k').distances =
      some (setDistancesList k' (knowns.map (fun s => mkDistanceSample fns s unknown))) := by
  have hcond : ¬ ((mkKnn fns knowns unknown k).numberOfNearestNeighbors = k') := by
    rw [mkKnn_k]
    exact fun h => hne h.symm
  rw [changeNumberOfNearestNeighbors, if_neg hcond, setDistancesOn]
  rw [show ({ mkKnn fns knowns unknown k with numberOfNearestNeighbors :=
      k' } : knnState).SamplesWithKnownStatuses = knowns from mkKnn_knowns fns knowns unknown k]
  rw [if_neg (by simpa using not_lt.mpr hn)]
  show some (setDistancesList k' (knowns.map
    (fun s => mkDistanceSample fns s
      ({ mkKnn fns knowns unknown k with numberOfNearestNeighbors :=
        k' } : knnState).SampleWithUnknownStatus))) = _
  rw [show ({ mkKnn fns knowns unknown k with numberOfNearestNeighbors :=
      k' } : knnState).SampleWithUnknownStatus = unknown from mkKnn_unknown fns knowns unknown k]

/-- The stored prediction is untouched by a change of k. -/
theorem changeK_status (fns : realFns) (knowns : List lineSample) (unknown : lineSample)
    (k k' : ℕ) (hne : k' ≠ k) :
    (changeNumberOfNearestNeighbors fns (mkKnn fns knowns unknown k) k').PredictedStatus =
      (mkKnn fns knowns unknown k).PredictedStatus := by
  have hcond : ¬ ((mkKnn fns knowns unknown k).numberOfNearestNeighbors = k') := by
    rw [mkKnn_k]
    exact fun h => hne h.symm
  rw [changeNumberOfNearestNeighbors, if_neg hcond, setDistancesOn_status]

/-- C5 (amended): for k' different from the current k with 1 <= k' <= n,
    ChangeNumberOfNearestNeighbors fully rebuilds the distances array, which
    afterwards equals the one of a freshly constructed classifier with k';
    the PredictedStatus member, however, is not recomputed and keeps its
    value from before the change. -/
theorem changeK_rebuild (fns : realFns) (knowns : List lineSample) (unknown : lineSample)
    (k k' : ℕ) (hne : k' ≠ k) (hk : 1 ≤ k') (hn : k' ≤ knowns.length) :
    (changeNumberOfNearestNeighbors fns (mkKnn fns knowns unknown k) k').distances =
      (mkKnn fns knowns unknown k').distances ∧
    (changeNumberOfNearestNeighbors fns (mkKnn fns knowns unknown k) k').PredictedStatus =
      (mkKnn fns knowns unknown k).PredictedStatus := by
  refine ⟨?_, changeK_status fns knowns unknown k k' hne⟩
  rw [changeK_distances fns knowns unknown k k' hne hn,
    mkKnn_distances fns knowns unknown k' hn]

/-- C5 witness for the amended claim: concrete rebuild from k = 5 to k' = 1. -/
theorem changeK_rebuild_witness :
    (changeNumberOfNearestNeighbors fns0 (mkKnn fns0 knowns0 query0 5) 1).distances =
      (mkKnn fns0 knowns0 query0 1).distances ∧
    (changeNumberOfNearestNeighbors fns0 (mkKnn fns0 knowns0 query0 5) 1).PredictedStatus =
      (mkKnn fns0 knowns0 query0 5).PredictedStatus :=
  changeK_rebuild fns0 knowns0 query0 5 1 (by decide) (by decide) (by decide)

/-- The distance of a concrete family sample to the query evaluates to
    10 * re^4 under fns0. -/
theorem mkDistanceSample_sampleRe (re : ℚ) (w : Bool) :
    mkDistanceSample fns0 (sampleRe re w) query0 =
      { Distance := 10 * re ^ 4, IsWorking := w } := by
  rw [mkDistanceSample, if_pos (by rfl)]
  refine congrArg (fun x : ℚ => ({ Distance := x, IsWorking := w } : distanceSample)) ?_
  show calculateDistance fns0 (sampleRe re w) query0 = 10 * re ^ 4
  simp only [calculateDistance, distTermSq, phasorSub, updateRMSandPhase, sampleRe, query0,
    mkPar, fns0, wLine, wNode, wOther, List.zip_nil_right, List.foldl_nil, id_eq]
  ring

/-- The five concrete distance samples fed to the scan. -/
theorem knowns0_distances :
    knowns0.map (fun s => mkDistanceSample fns0 s query0) =
      [{ Distance := 10, IsWorking := false }, { Distance := 160, IsWorking := true },
       { Distance := 810, IsWorking := true }, { Distance := 2560, IsWorking := true },
       { Distance := 6250, IsWorking := false }] := by
  rw [knowns0]
  simp only [List.map_cons, List.map_nil, mkDistanceSample_sampleRe]
  norm_num

/-- The scan with k = 5 keeps all five (already sorted) samples. -/
theorem scan5_eval :
    setDistancesList 5
      [{ Distance := 10, IsWorking := false }, { Distance := 160, IsWorking := true },
       { Distance := 810, IsWorking := true }, { Distance := 2560, IsWorking := true },
       { Distance := 6250, IsWorking := false }] =
      [{ Distance := 10, IsWorking := false }, { Distance := 160, IsWorking := true },
       { Distance := 810, IsWorking := true }, { Distance := 2560, IsWorking := true },
       { Distance := 6250, IsWorking := false }] := by
  norm_num [setDistancesList, knnScan_cons, knnScan_nil, bubblePass]

/-- The scan with k = 1 keeps only the nearest (not-working) sample. -/
theorem scan1_eval :
    setDistancesList 1
      [{ Distance := 10, IsWorking := false }, { Distance := 160, IsWorking := true },
       { Distance := 810, IsWorking := true }, { Distance := 2560, IsWorking := true },
       { Distance := 6250, IsWorking := false }] =
      [{ Distance := 10, IsWorking := false }] := by
  norm_num [setDistancesList, knnScan_cons, knnScan_nil, bubblePass]

/-- C5 counterexample to the claim as stated: after changing k = 5 to k' = 1
    the rebuilt distances array matches a fresh k' = 1 classifier, but the
    predicted status is stale (still the k = 5 vote, true) while the fresh
    classifier predicts false: the two statuses differ. -/
theorem changeK_stale_status :
    (changeNumberOfNearestNeighbors fns0 (mkKnn fns0 knowns0 query0 5) 1).distances =
      (mkKnn fns0 knowns0 query0 1).distances ∧
    (changeNumberOfNearestNeighbors fns0 (mkKnn fns0 knowns0 query0 5) 1).PredictedStatus =
      some true ∧
    (mkKnn fns0 knowns0 query0 1).PredictedStatus = some false ∧
    (changeNumberOfNearestNeighbors fns0 (mkKnn fns0 knowns0 query0 5) 1).PredictedStatus ≠
      (mkKnn fns0 knowns0 query0 1).PredictedStatus := by
  have hlen : knowns0.length = 5 := by rw [knowns0]; rfl
  have h51 : (1 : ℕ) ≠ 5 := by omega
  have hd1 := changeK_distances fns0 knowns0 query0 5 1 h51 (by omega)
  have hs1 := changeK_status fns0 knowns0 query0 5 1 h51
  have hm1 := mkKnn_distances fns0 knowns0 query0 1 (by omega)
  have hms5 := mkKnn_status fns0 knowns0 query0 5 (by omega)
  have hms1 := mkKnn_status fns0 knowns0 query0 1 (by omega)
  have hp5 : predictStatus (setDistancesList 5
      (knowns0.map (fun s => mkDistanceSample fns0 s query0))) = true := by
    rw [knowns0_distances, scan5_eval]
    rfl
  have hp1 : predictStatus (setDistancesList 1
      (knowns0.map (fun s => mkDistanceSample fns0 s query0))) = false := by
    rw [knowns0_distances, scan1_eval]
    rfl
  refine ⟨?_, ?_, ?_, ?_⟩
  · rw [hd1, hm1]
  · rw [hs1, hms5, hp5]
  · rw [hms1, hp1]
  · rw [hs1, hms5, hp5, hms1, hp1]
    simp

theorem foldl_add_map {α : Type} (f : α → ℚ) :
    ∀ (l : List α) (x : ℚ), l.foldl (fun d a => d + f a) x = x + (l.map f).sum := by
  intro l
  induction l with
  | nil => intro x; simp
  | cons a t ih =>
    intro x
    rw [List.foldl_cons, ih, List.map_cons, List.sum_cons, add_assoc]

/-- C3: CalculateDistance returns the square root of the weighted sum
    (wLine/2 = 10 per line-current term, wNode/2 = 2 per voltage term, and
    wOther/(2*n) = 1/(2*n) per other-current term at a node with n other
    currents), each magnitude being the RMS value of the phasor difference;
    a node with no other currents contributes an empty sum, 0. -/
theorem calculateDistance_formula (fns : realFns) (known unknown : lineSample)
    (h : areSamplesOfTheSameLine known unknown = true) :
    calculateDistance fns known unknown = fns.sqrtQ
      (20 / 2 * ((phasorSub fns known.Node1LineCurrentNorm.Phasor
          unknown.Node1LineCurrentNorm.Phasor).RMSvalue) ^ 2 +
       20 / 2 * ((phasorSub fns known.Node2LineCurrentNorm.Phasor
          unknown.Node2LineCurrentNorm.Phasor).RMSvalue) ^ 2 +
       4 / 2 * ((phasorSub fns known.Node1VoltageNorm.Phasor
          unknown.Node1VoltageNorm.Phasor).RMSvalue) ^ 2 +
       4 / 2 * ((phasorSub fns known.Node2VoltageNorm.Phasor
          unknown.Node2VoltageNorm.Phasor).RMSvalue) ^ 2 +
       ((known.Node1OtherCurrentsNorm.zip unknown.Node1OtherCurrentsNorm).map
         (fun pr => 1 / (2 * (known.Node1OtherCurrentsNorm.length : ℚ)) *
           ((phasorSub fns pr.1.Phasor pr.2.Phasor).RMSvalue) ^ 2)).sum +
       ((known.Node2OtherCurrentsNorm.zip unknown.Node2OtherCurrentsNorm).map
         (fun pr => 1 / (2 * (known.Node2OtherCurrentsNorm.length : ℚ)) *
           ((phasorSub fns pr.1.Phasor pr.2.Phasor).RMSvalue) ^ 2)).sum) := by
  simp only [calculateDistance, distTermSq, wLine, wNode, wOther]
  rw [foldl_add_map (fun pr : parameter × parameter =>
      1 / (2 * (known.Node1OtherCurrentsNorm.length : ℚ)) *
        ((phasorSub fns pr.1.Phasor pr.2.Phasor).RMSvalue) ^ 2),
    foldl_add_map (fun pr : parameter × parameter =>
      1 / (2 * (known.Node2OtherCurrentsNorm.length : ℚ)) *
        ((phasorSub fns pr.1.Phasor pr.2.Phasor).RMSvalue) ^ 2)]
  refine congrArg fns.sqrtQ ?_
  ring

/-- C3 witness at a concrete comparable pair (empty other-current lists). -/
theorem calculateDistance_formula_witness :
    calculateDistance fns0 (sampleRe 1 false) query0 = fns0.sqrtQ
      (20 / 2 * ((phasorSub fns0 (sampleRe 1 false).Node1LineCurrentNorm.Phasor
          query0.Node1LineCurrentNorm.Phasor).RMSvalue) ^ 2 +
       20 / 2 * ((phasorSub fns0 (sampleRe 1 false).Node2LineCurrentNorm.Phasor
          query0.Node2LineCurrentNorm.Phasor).RMSvalue) ^ 2 +
       4 / 2 * ((phasorSub fns0 (sampleRe 1 false).Node1VoltageNorm.Phasor
          query0.Node1VoltageNorm.Phasor).RMSvalue) ^ 2 +
       4 / 2 * ((phasorSub fns0 (sampleRe 1 false).Node2VoltageNorm.Phasor
          query0.Node2VoltageNorm.Phasor).RMSvalue) ^ 2 +
       (((sampleRe 1 false).Node1OtherCurrentsNorm.zip query0.Node1OtherCurrentsNorm).map
         (fun pr => 1 / (2 * ((sampleRe 1 false).Node1OtherCurrentsNorm.length : ℚ)) *
           ((phasorSub fns0 pr.1.Phasor pr.2.Phasor).RMSvalue) ^ 2)).sum +
       (((sampleRe 1 false).Node2OtherCurrentsNorm.zip query0.Node2OtherCurrentsNorm).map
         (fun pr => 1 / (2 * ((sampleRe 1 false).Node2OtherCurrentsNorm.length : ℚ)) *
           ((phasorSub fns0 pr.1.Phasor pr.2.Phasor).RMSvalue) ^ 2)).sum) :=
  calculateDistance_formula fns0 (sampleRe 1 false) query0 (by rfl)

/-- C7: dividing any phasor by one whose RMS value is exactly 0 takes the
    catch branch: the condition is reported (the Bool) and the quotient is
    the zero phasor, all four fields 0. -/
theorem phasorDiv_by_zero (fns : realFns) (p d : phasor) (h : d.RMSvalue = 0) :
    phasorDiv fns p d =
      ({ real := 0, imaginary := 0, RMSvalue := 0, PhaseAngleDegrees := 0 }, true) := by
  rw [phasorDiv, if_pos h]
  simp [updateRealAndImag]

/-- C7 witness: a concrete division by the zero phasor. -/
theorem phasorDiv_by_zero_witness :
    phasorDiv fns0 { real := 3, imaginary := 4, RMSvalue := 5, PhaseAngleDegrees := 90 }
      { real := 0, imaginary := 0, RMSvalue := 0, PhaseAngleDegrees := 0 } =
      ({ real := 0, imaginary := 0, RMSvalue := 0, PhaseAngleDegrees := 0 }, true) :=
  phasorDiv_by_zero fns0 _ _ rfl

theorem zip_self_id (l : List parameter) :
    ∀ a b : parameter, (a, b) ∈ l.zip l →
      a.StartNodeNumber = b.StartNodeNumber ∧
      a.DestinationNodeNumber = b.DestinationNodeNumber := by
  induction l with
  | nil => intro a b h; simp at h
  | cons c t ih =>
    intro a b h
    rw [List.zip_cons_cons, List.mem_cons] at h
    rcases h with h | h
    · simp only [Prod.mk.injEq] at h
      rw [h.1, h.2]
      exact ⟨rfl, rfl⟩
    · exact ih a b h

/-- Every line sample passes the same-line check against itself. -/
theorem sameLine_refl (s : lineSample) : areSamplesOfTheSameLine s s = true := by
  simp only [areSamplesOfTheSameLine, sameIdentity]
  simp
  exact ⟨zip_self_id _, zip_self_id _⟩

theorem distTermSq_self (fns : realFns) (h0 : fns.sqrtQ 0 = 0) (p : parameter) :
    distTermSq fns p p = 0 := by
  simp only [distTermSq, phasorSub, updateRMSandPhase, sub_self]
  rw [show (0:ℚ) ^ 2 + (0:ℚ) ^ 2 = 0 by norm_num, h0]
  norm_num

theorem foldl_add_zero (fns : realFns) (h0 : fns.sqrtQ 0 = 0) (c : ℚ) :
    ∀ (l : List parameter) (x : ℚ),
      (l.zip l).foldl (fun d pr => d + c * distTermSq fns pr.1 pr.2) x = x := by
  intro l
  induction l with
  | nil => intro x; rfl
  | cons a t ih =>
    intro x
    rw [List.zip_cons_cons, List.foldl_cons]
    rw [show x + c * distTermSq fns (a, a).1 (a, a).2 = x by
      rw [show ((a, a) : parameter × parameter).1 = a from rfl,
        show ((a, a) : parameter × parameter).2 = a from rfl,
        distTermSq_self fns h0 a, mul_zero, add_zero]]
    exact ih x

/-- C8: the DistanceSample of a sample against itself has Distance 0 (every
    phasor difference is the zero phasor, so every squared RMS term is 0 and
    the square root of 0 is 0). -/
theorem distance_self_zero (fns : realFns) (s : lineSample) (h0 : fns.sqrtQ 0 = 0) :
    (mkDistanceSample fns s s).Distance = 0 := by
  rw [mkDistanceSample, if_pos (sameLine_refl s)]
  show calculateDistance fns s s = 0
  simp only [calculateDistance]
  rw [foldl_add_zero fns h0 _ s.Node1OtherCurrentsNorm,
    foldl_add_zero fns h0 _ s.Node2OtherCurrentsNorm]
  rw [distTermSq_self fns h0, distTermSq_self fns h0, distTermSq_self fns h0,
    distTermSq_self fns h0]
  norm_num [h0]

/-- C8 witness: a concrete sample against itself. -/
theorem distance_self_zero_witness :
    (mkDistanceSample fns0 query0 query0).Distance = 0 :=
  distance_self_zero fns0 query0 rfl

/-- The canonical angle interval of the phasor class invariant. -/
def angleInRange (a : ℚ) : Prop := -180 < a ∧ a ≤ 180

/-- The phase angle produced by UpdateRMSandPhase lies in (-180, 180],
    provided the arctangent stand-in has the range and sign of
    180/pi * atan. -/
theorem angleFromCartesian_range (fns : realFns)
    (hr : ∀ x : ℚ, -90 < fns.atanDeg x ∧ fns.atanDeg x < 90)
    (hnp : ∀ x : ℚ, x ≤ 0 → fns.atanDeg x ≤ 0)
    (hpp : ∀ x : ℚ, 0 < x → 0 < fns.atanDeg x)
    (re im : ℚ) : angleInRange (angleFromCartesian fns re im) := by
  rw [angleFromCartesian]
  by_cases h1 : re = 0
  · rw [if_pos h1]
    by_cases h2 : im < 0
    · rw [if_pos h2]
      constructor <;> norm_num
    · rw [if_neg h2]
      by_cases h3 : 0 < im
      · rw [if_pos h3]
        constructor <;> norm_num
      · rw [if_neg h3]
        constructor <;> norm_num
  · rw [if_neg h1]
    by_cases h4 : re < 0
    · rw [if_pos h4]
      by_cases h5 : 0 ≤ im
      · rw [if_pos h5]
        have hle : fns.atanDeg (im / re) ≤ 0 :=
          hnp _ (div_nonpos_of_nonneg_of_nonpos h5 (le_of_lt h4))
        have hgt := (hr (im / re)).1
        constructor <;> linarith
      · rw [if_neg h5]
        have hgt : 0 < fns.atanDeg (im / re) :=
          hpp _ (div_pos_iff.mpr (Or.inr ⟨lt_of_not_le h5, h4⟩))
        have hlt := (hr (im / re)).2
        constructor <;> linarith
    · rw [if_neg h4]
      have h := hr (im / re)
      exact ⟨by linarith [h.1], by linarith [h.2]⟩

/-- C9: every phasor produced by an arithmetic operation has its phase angle
    in (-180, 180]: addition and subtraction through the quadrant-corrected
    arctangent of UpdateRMSandPhase (whose stand-in must have the range and
    sign of 180/pi * atan), multiplication, division and Pow through the
    while-loop canonicalization (the failure branches return angle 0). -/
theorem phasor_ops_angle_range (fns : realFns) (p q : phasor) (w : ℚ)
    (hr : ∀ x : ℚ, -90 < fns.atanDeg x ∧ fns.atanDeg x < 90)
    (hnp : ∀ x : ℚ, x ≤ 0 → fns.atanDeg x ≤ 0)
    (hpp : ∀ x : ℚ, 0 < x → 0 < fns.atanDeg x) :
    angleInRange (phasorAdd fns p q).PhaseAngleDegrees ∧
    angleInRange (phasorSub fns p q).PhaseAngleDegrees ∧
    angleInRange (phasorMul fns p q).PhaseAngleDegrees ∧
    angleInRange (phasorDiv fns p q).1.PhaseAngleDegrees ∧
    angleInRange (phasorPow fns p w).1.PhaseAngleDegrees := by
  refine ⟨?_, ?_, ?_, ?_, ?_⟩
  · exact angleFromCartesian_range fns hr hnp hpp _ _
  · exact angleFromCartesian_range fns hr hnp hpp _ _
  · exact normalizeAngle_mem _
  · rw [phasorDiv]
    by_cases h : q.RMSvalue = 0
    · rw [if_pos h]
      constructor <;> norm_num [updateRealAndImag]
    · rw [if_neg h]
      exact normalizeAngle_mem _
  · rw [phasorPow]
    by_cases h : p.RMSvalue = 0 ∧ w ≤ 0
    · rw [if_pos h]
      constructor <;> norm_num [updateRealAndImag]
    · rw [if_neg h]
      exact normalizeAngle_mem _

/-- A concrete arctangent stand-in with the range and sign of
    180/pi * atan. -/
def fnsW : realFns :=
  { sqrtQ := id
    atanDeg := fun x => if x < 0 then -1 else if x = 0 then 0 else 1
    cosDeg := fun _ => 0
    sinDeg := fun _ => 0
    powQ := fun _ _ => 0 }

theorem fnsW_range (x : ℚ) : -90 < fnsW.atanDeg x ∧ fnsW.atanDeg x < 90 := by
  show -90 < (if x < 0 then (-1:ℚ) else if x = 0 then 0 else 1) ∧
    (if x < 0 then (-1:ℚ) else if x = 0 then 0 else 1) < 90
  by_cases h1 : x < 0
  · rw [if_pos h1]
    norm_num
  · rw [if_neg h1]
    by_cases h2 : x = 0
    · rw [if_pos h2]
      norm_num
    · rw [if_neg h2]
      norm_num

theorem fnsW_nonpos (x : ℚ) (h : x ≤ 0) : fnsW.atanDeg x ≤ 0 := by
  show (if x < 0 then (-1:ℚ) else if x = 0 then 0 else 1) ≤ 0
  by_cases h1 : x < 0
  · rw [if_pos h1]
    norm_num
  · rw [if_neg h1, if_pos (le_antisymm h (not_lt.mp h1))]

theorem fnsW_pos (x : ℚ) (h : 0 < x) : 0 < fnsW.atanDeg x := by
  show (0:ℚ) < if x < 0 then -1 else if x = 0 then 0 else 1
  rw [if_neg (not_lt.mpr (le_of_lt h)), if_neg (ne_of_gt h)]
  norm_num

/-- What normalization does to one parameter when the rating is nonzero: the
    identity is copied, the magnitude is divided by the rating exactly, and
    the angle passes through the canonicalization loops (angle minus the
    divisor angle 0). -/
theorem normalizeParam_fields (fns : realFns) (rated : ℚ) (p : parameter)
    (hr : rated ≠ 0) :
    (normalizeParam fns rated p).StartNodeNumber = p.StartNodeNumber ∧
    (normalizeParam fns rated p).DestinationNodeNumber = p.DestinationNodeNumber ∧
    (normalizeParam fns rated p).Phasor.RMSvalue = p.Phasor.RMSvalue / rated ∧
    (normalizeParam fns rated p).Phasor.PhaseAngleDegrees =
      normalizeAngle p.Phasor.PhaseAngleDegrees := by
  have hne : ¬ ((phasorOfPolar fns rated 0).RMSvalue = 0) := hr
  refine ⟨rfl, rfl, ?_, ?_⟩
  · show (phasorDiv fns p.Phasor (phasorOfPolar fns rated 0)).1.RMSvalue = _
    rw [phasorDiv, if_neg hne]
    rfl
  · show (phasorDiv fns p.Phasor (phasorOfPolar fns rated 0)).1.PhaseAngleDegrees = _
    rw [phasorDiv, if_neg hne]
    show normalizeAngle
      (p.Phasor.PhaseAngleDegrees - (phasorOfPolar fns rated 0).PhaseAngleDegrees) = _
    rw [show (phasorOfPolar fns rated 0).PhaseAngleDegrees = 0 from rfl, sub_zero]

theorem map_normalize_RMS (fns : realFns) (rated : ℚ) (hr : rated ≠ 0)
    (l : List parameter) :
    (l.map (normalizeParam fns rated)).map (fun p => p.Phasor.RMSvalue) =
      l.map (fun c => c.Phasor.RMSvalue / rated) := by
  rw [List.map_map]
  exact List.map_congr_left
    (fun c _ => (normalizeParam_fields fns rated c hr).2.2.1)

theorem map_normalize_angle (fns : realFns) (rated : ℚ) (hr : rated ≠ 0)
    (l : List parameter) :
    (l.map (normalizeParam fns rated)).map (fun p => p.Phasor.PhaseAngleDegrees) =
      l.map (fun c => normalizeAngle c.Phasor.PhaseAngleDegrees) := by
  rw [List.map_map]
  exact List.map_congr_left
    (fun c _ => (normalizeParam_fields fns rated c hr).2.2.2)

/-- C6 (amended): on a successful construction with positive ratings, every
    normalized parameter keeps its identity, its magnitude is exactly the
    original magnitude divided by the owning node rating, and its phase angle
    equals the original angle canonicalized into (-180, 180] - in particular
    untouched whenever the original angle already lies in (-180, 180]. -/
theorem lineSample_normalization (fns : realFns) (n1 n2 : nodeSample) (w : Bool)
    (ls : lineSample) (h : mkLineSample fns n1 n2 w = some ls)
    (hc1 : 0 < n1.RatedCurrent) (hc2 : 0 < n2.RatedCurrent)
    (hv1 : 0 < n1.RatedVoltage) (hv2 : 0 < n2.RatedVoltage) :
    (∃ c1, n1.Currents.find? (fun c => c.DestinationNodeNumber == n2.NodeNumber) = some c1 ∧
      ls.Node1LineCurrentNorm.Phasor.RMSvalue = c1.Phasor.RMSvalue / n1.RatedCurrent ∧
      ls.Node1LineCurrentNorm.Phasor.PhaseAngleDegrees =
        normalizeAngle c1.Phasor.PhaseAngleDegrees) ∧
    (∃ c2, n2.Currents.find? (fun c => c.DestinationNodeNumber == n1.NodeNumber) = some c2 ∧
      ls.Node2LineCurrentNorm.Phasor.RMSvalue = c2.Phasor.RMSvalue / n2.RatedCurrent ∧
      ls.Node2LineCurrentNorm.Phasor.PhaseAngleDegrees =
        normalizeAngle c2.Phasor.PhaseAngleDegrees) ∧
    (ls.Node1VoltageNorm.Phasor.RMSvalue = n1.Voltage.Phasor.RMSvalue / n1.RatedVoltage ∧
     ls.Node1VoltageNorm.Phasor.PhaseAngleDegrees =
       normalizeAngle n1.Voltage.Phasor.PhaseAngleDegrees) ∧
    (ls.Node2VoltageNorm.Phasor.RMSvalue = n2.Voltage.Phasor.RMSvalue / n2.RatedVoltage ∧
     ls.Node2VoltageNorm.Phasor.PhaseAngleDegrees =
       normalizeAngle n2.Voltage.Phasor.PhaseAngleDegrees) ∧
    (ls.Node1OtherCurrentsNorm.map (fun p => p.Phasor.RMSvalue) =
      (n1.Currents.eraseP (fun c => c.DestinationNodeNumber == n2.NodeNumber)).map
        (fun c => c.Phasor.RMSvalue / n1.RatedCurrent) ∧
     ls.Node1OtherCurrentsNorm.map (fun p => p.Phasor.PhaseAngleDegrees) =
      (n1.Currents.eraseP (fun c => c.DestinationNodeNumber == n2.NodeNumber)).map
        (fun c => normalizeAngle c.Phasor.PhaseAngleDegrees)) ∧
    (ls.Node2OtherCurrentsNorm.map (fun p => p.Phasor.RMSvalue) =
      (n2.Currents.eraseP (fun c => c.DestinationNodeNumber == n1.NodeNumber)).map
        (fun c => c.Phasor.RMSvalue / n2.RatedCurrent) ∧
     ls.Node2OtherCurrentsNorm.map (fun p => p.Phasor.PhaseAngleDegrees) =
      (n2.Currents.eraseP (fun c => c.DestinationNodeNumber == n1.NodeNumber)).map
        (fun c => normalizeAngle c.Phasor.PhaseAngleDegrees)) ∧
    (∀ a : ℚ, -180 < a → a ≤ 180 → normalizeAngle a = a) := by
  cases hf1 : n1.Currents.find? (fun c => c.DestinationNodeNumber == n2.NodeNumber) with
  | none =>
    simp only [mkLineSample, hf1] at h
    exact Option.noConfusion h
  | some c1 =>
    cases hf2 : n2.Currents.find? (fun c => c.DestinationNodeNumber == n1.NodeNumber) with
    | none =>
      simp only [mkLineSample, hf1, hf2] at h
      exact Option.noConfusion h
    | some c2 =>
      simp only [mkLineSample, hf1, hf2, Option.some.injEq] at h
      subst h
      refine ⟨⟨c1, rfl, ?_, ?_⟩, ⟨c2, rfl, ?_, ?_⟩, ⟨?_, ?_⟩, ⟨?_, ?_⟩, ⟨?_, ?_⟩, ⟨?_, ?_⟩,
        fun a h1 h2 => normalizeAngle_eq_self a h1 h2⟩
      · exact (normalizeParam_fields fns n1.RatedCurrent c1 (ne_of_gt hc1)).2.2.1
      · exact (normalizeParam_fields fns n1.RatedCurrent c1 (ne_of_gt hc1)).2.2.2
      · exact (normalizeParam_fields fns n2.RatedCurrent c2 (ne_of_gt hc2)).2.2.1
      · exact (normalizeParam_fields fns n2.RatedCurrent c2 (ne_of_gt hc2)).2.2.2
      · exact (normalizeParam_fields fns n1.RatedVoltage n1.Voltage (ne_of_gt hv1)).2.2.1
      · exact (normalizeParam_fields fns n1.RatedVoltage n1.Voltage (ne_of_gt hv1)).2.2.2
      · exact (normalizeParam_fields fns n2.RatedVoltage n2.Voltage (ne_of_gt hv2)).2.2.1
      · exact (normalizeParam_fields fns n2.RatedVoltage n2.Voltage (ne_of_gt hv2)).2.2.2
      · exact map_normalize_RMS fns n1.RatedCurrent (ne_of_gt hc1) _
      · exact map_normalize_angle fns n1.RatedCurrent (ne_of_gt hc1) _
      · exact map_normalize_RMS fns n2.RatedCurrent (ne_of_gt hc2) _
      · exact map_normalize_angle fns n2.RatedCurrent (ne_of_gt hc2) _

/-- The node-1 line current used in the concrete construction, with an
    out-of-range phase angle of 200 degrees. -/
def curA : parameter :=
  { Phasor := { real := 0, imaginary := 0, RMSvalue := 25, PhaseAngleDegrees := 200 },
    StartNodeNumber := 1, DestinationNodeNumber := 2 }

/-- The node-2 line current, angle 15 degrees. -/
def curB : parameter :=
  { Phasor := { real := 0, imaginary := 0, RMSvalue := 25, PhaseAngleDegrees := 15 },
    StartNodeNumber := 2, DestinationNodeNumber := 1 }

/-- Concrete node 1 of the line 1-2. -/
def nodeA : nodeSample :=
  { NodeNumber := 1, Voltage := mkPar 1 0 0, Currents := [curA],
    RatedVoltage := 250000, RatedCurrent := 25 }

/-- Concrete node 2 of the line 1-2. -/
def nodeB : nodeSample :=
  { NodeNumber := 2, Voltage := mkPar 2 0 0, Currents := [curB],
    RatedVoltage := 250000, RatedCurrent := 25 }

theorem normalizeAngle_200 : normalizeAngle 200 = -160 := by
  rw [normalizeAngle, subtractLoop, if_pos (by norm_num : (180:ℚ) < 200),
    show (200:ℚ) - 360 = -160 by norm_num,
    subtractLoop_eq_self (-160) (by norm_num), addLoop_eq_self (-160) (by norm_num)]

/-- C6 counterexample: a successful construction with positive ratings where
    the original node-1 line current has phase angle 200; after
    normalization the stored angle is -160, not 200: the angle is not
    untouched. -/
theorem lineSample_angle_cex :
    nodeA.Currents.find? (fun c => c.DestinationNodeNumber == nodeB.NodeNumber) = some curA ∧
    curA.Phasor.PhaseAngleDegrees = 200 ∧
    0 < nodeA.RatedCurrent ∧ 0 < nodeA.RatedVoltage ∧
    0 < nodeB.RatedCurrent ∧ 0 < nodeB.RatedVoltage ∧
    (mkLineSample fns0 nodeA nodeB true).map
      (fun ls => ls.Node1LineCurrentNorm.Phasor.PhaseAngleDegrees) = some (-160) ∧
    ((-160 : ℚ) ≠ 200) := by
  have hf1 : nodeA.Currents.find?
      (fun c => c.DestinationNodeNumber == nodeB.NodeNumber) = some curA := rfl
  have hf2 : nodeB.Currents.find?
      (fun c => c.DestinationNodeNumber == nodeA.NodeNumber) = some curB := rfl
  refine ⟨hf1, rfl, by norm_num [nodeA], by norm_num [nodeA], by norm_num [nodeB],
    by norm_num [nodeB], ?_, by norm_num⟩
  simp only [mkLineSample, hf1, hf2, Option.map_some']
  refine congrArg some ?_
  show (normalizeParam fns0 nodeA.RatedCurrent curA).Phasor.PhaseAngleDegrees = -160
  rw [(normalizeParam_fields fns0 nodeA.RatedCurrent curA (by norm_num [nodeA])).2.2.2]
  rw [show curA.Phasor.PhaseAngleDegrees = 200 from rfl, normalizeAngle_200]

/-- The line sample built from nodeA and nodeB under fns0. -/
def lsAB : lineSample :=
  { Node1LineCurrentNorm :=
      { Phasor := { real := 0, imaginary := 0, RMSvalue := 1, PhaseAngleDegrees := -160 },
        StartNodeNumber := 1, DestinationNodeNumber := 2 }
    Node2LineCurrentNorm :=
      { Phasor := { real := 0, imaginary := 0, RMSvalue := 1, PhaseAngleDegrees := 15 },
        StartNodeNumber := 2, DestinationNodeNumber := 1 }
    Node1VoltageNorm := mkPar 1 0 0
    Node2VoltageNorm := mkPar 2 0 0
    Node1OtherCurrentsNorm := []
    Node2OtherCurrentsNorm := []
    IsWorking := true }

theorem mkLineSample_AB : mkLineSample fns0 nodeA nodeB true = some lsAB := by
  have hf1 : nodeA.Currents.find?
      (fun c => c.DestinationNodeNumber == nodeB.NodeNumber) = some curA := rfl
  have hf2 : nodeB.Currents.find?
      (fun c => c.DestinationNodeNumber == nodeA.NodeNumber) = some curB := rfl
  have h15 : normalizeAngle 15 = 15 := normalizeAngle_eq_self 15 (by norm_num) (by norm_num)
  have h0 : normalizeAngle 0 = 0 := normalizeAngle_eq_self 0 (by norm_num) (by norm_num)
  simp only [mkLineSample, hf1, hf2, Option.some.injEq]
  have hA : normalizeParam fns0 nodeA.RatedCurrent curA = lsAB.Node1LineCurrentNorm := by
    norm_num [normalizeParam, phasorDiv, phasorOfPolar, updateRealAndImag, curA, lsAB,
      fns0, nodeA, normalizeAngle_200]
  have hB : normalizeParam fns0 nodeB.RatedCurrent curB = lsAB.Node2LineCurrentNorm := by
    norm_num [normalizeParam, phasorDiv, phasorOfPolar, updateRealAndImag, curB, lsAB,
      fns0, nodeB, h15]
  have hVA : normalizeParam fns0 nodeA.RatedVoltage nodeA.Voltage = lsAB.Node1VoltageNorm := by
    norm_num [normalizeParam, phasorDiv, phasorOfPolar, updateRealAndImag, mkPar, lsAB,
      fns0, nodeA, h0]
  have hVB : normalizeParam fns0 nodeB.RatedVoltage nodeB.Voltage = lsAB.Node2VoltageNorm := by
    norm_num [normalizeParam, phasorDiv, phasorOfPolar, updateRealAndImag, mkPar, lsAB,
      fns0, nodeB, h0]
  rw [hA, hB, hVA, hVB]
  rfl

/-- C6 witness for the amended claim: the concrete construction from nodeA
    and nodeB. -/
theorem lineSample_normalization_witness :
    (∃ c1, nodeA.Currents.find?
        (fun c => c.DestinationNodeNumber == nodeB.NodeNumber) = some c1 ∧
      lsAB.Node1LineCurrentNorm.Phasor.RMSvalue = c1.Phasor.RMSvalue / nodeA.RatedCurrent ∧
      lsAB.Node1LineCurrentNorm.Phasor.PhaseAngleDegrees =
        normalizeAngle c1.Phasor.PhaseAngleDegrees) ∧
    (∃ c2, nodeB.Currents.find?
        (fun c => c.DestinationNodeNumber == nodeA.NodeNumber) = some c2 ∧
      lsAB.Node2LineCurrentNorm.Phasor.RMSvalue = c2.Phasor.RMSvalue / nodeB.RatedCurrent ∧
      lsAB.Node2LineCurrentNorm.Phasor.PhaseAngleDegrees =
        normalizeAngle c2.Phasor.PhaseAngleDegrees) ∧
    (lsAB.Node1VoltageNorm.Phasor.RMSvalue =
       nodeA.Voltage.Phasor.RMSvalue / nodeA.RatedVoltage ∧
     lsAB.Node1VoltageNorm.Phasor.PhaseAngleDegrees =
       normalizeAngle nodeA.Voltage.Phasor.PhaseAngleDegrees) ∧
    (lsAB.Node2VoltageNorm.Phasor.RMSvalue =
       nodeB.Voltage.Phasor.RMSvalue / nodeB.RatedVoltage ∧
     lsAB.Node2VoltageNorm.Phasor.PhaseAngleDegrees =
       normalizeAngle nodeB.Voltage.Phasor.PhaseAngleDegrees) ∧
    (lsAB.Node1OtherCurrentsNorm.map (fun p => p.Phasor.RMSvalue) =
      (nodeA.Currents.eraseP (fun c => c.DestinationNodeNumber == nodeB.NodeNumber)).map
        (fun c => c.Phasor.RMSvalue / nodeA.RatedCurrent) ∧
     lsAB.Node1OtherCurrentsNorm.map (fun p => p.Phasor.PhaseAngleDegrees) =
      (nodeA.Currents.eraseP (fun c => c.DestinationNodeNumber == nodeB.NodeNumber)).map
        (fun c => normalizeAngle c.Phasor.PhaseAngleDegrees)) ∧
    (lsAB.Node2OtherCurrentsNorm.map (fun p => p.Phasor.RMSvalue) =
      (nodeB.Currents.eraseP (fun c => c.DestinationNodeNumber == nodeA.NodeNumber)).map
        (fun c => c.Phasor.RMSvalue / nodeB.RatedCurrent) ∧
     lsAB.Node2OtherCurrentsNorm.map (fun p => p.Phasor.PhaseAngleDegrees) =
      (nodeB.Currents.eraseP (fun c => c.DestinationNodeNumber == nodeA.NodeNumber)).map
        (fun c => normalizeAngle c.Phasor.PhaseAngleDegrees)) ∧
    (∀ a : ℚ, -180 < a → a ≤ 180 → normalizeAngle a = a) :=
  lineSample_normalization fns0 nodeA nodeB true lsAB mkLineSample_AB
    (by norm_num [nodeA]) (by norm_num [nodeB]) (by norm_num [nodeA]) (by norm_num [nodeB])

/-- A concrete phasor in the first quadrant. -/
def pW : phasor := { real := 1, imaginary := 1, RMSvalue := 2, PhaseAngleDegrees := 45 }

/-- A concrete phasor on the negative real axis. -/
def qW : phasor := { real := -2, imaginary := 0, RMSvalue := 2, PhaseAngleDegrees := 180 }

/-- C9 witness at concrete phasors and power. -/
theorem phasor_ops_angle_range_witness :
    angleInRange (phasorAdd fnsW pW qW).PhaseAngleDegrees ∧
    angleInRange (phasorSub fnsW pW qW).PhaseAngleDegrees ∧
    angleInRange (phasorMul fnsW pW qW).PhaseAngleDegrees ∧
    angleInRange (phasorDiv fnsW pW qW).1.PhaseAngleDegrees ∧
    angleInRange (phasorPow fnsW pW 3).1.PhaseAngleDegrees :=
  phasor_ops_angle_range fnsW pW qW 3 fnsW_range fnsW_nonpos fnsW_pos

/-- C10: a pair failing the same-line check leaves the constructed
    distanceSample at its default field values, Distance = 1000000000 and
    IsWorking = true; this sentinel enters the SetDistances scan as an
    ordinary element, and in the vote it counts as one more working status
    like any other sample. -/
theorem mkDistanceSample_mismatch (fns : realFns) (known unknown : lineSample)
    (h : areSamplesOfTheSameLine known unknown = false) :
    mkDistanceSample fns known unknown = { Distance := 1000000000, IsWorking := true } ∧
    (∀ (rest : List lineSample) (k : ℕ),
      setDistancesList k ((known :: rest).map (fun s => mkDistanceSample fns s unknown)) =
        setDistancesList k ({ Distance := 1000000000, IsWorking := true } ::
          rest.map (fun s => mkDistanceSample fns s unknown))) ∧
    (∀ l : List distanceSample,
      predictStatus ({ Distance := 1000000000, IsWorking := true } :: l) =
        if l.countP (fun s => !s.IsWorking) < l.countP (fun s => s.IsWorking) + 1
        then true else false) := by
  have h1 : mkDistanceSample fns known unknown =
      { Distance := 1000000000, IsWorking := true } := by
    rw [mkDistanceSample, if_neg (by simp [h])]
  refine ⟨h1, ?_, ?_⟩
  · intro rest k
    rw [List.map_cons, h1]
  · intro l
    rw [predictStatus]
    rw [List.foldl_cons]
    rw [voteCounts_eq]
    norm_num
    omega

/-- C10 witness: a concrete mismatched pair yields the sentinel record. -/
theorem mkDistanceSample_mismatch_witness :
    mkDistanceSample fns0 otherLine query0 =
      { Distance := 1000000000, IsWorking := true } :=
  (mkDistanceSample_mismatch fns0 otherLine query0 (by decide)).1

end KnnCpp
